import Mathlib

set_option maxHeartbeats 1000000

/-!
Shallow embedding of the Google-Drive-to-Facebook video transfer program
(source: a single Python file with a link resolver
`convert_drive_link_to_file_id`, a Fetcher `download_video_file`,
an Uploader `upload_to_facebook`, and a Credential Checker `test_token`).

Modelling conventions:
* strings are `List Char`, byte streams are `List Nat`;
* JSON fields that may be absent are `Option`; Python `None == None`
  evaluating to `True` is modelled by propositional equality on `Option`;
* numeric JSON offsets are `Int` (the source converts them with `int(...)`);
* network and file-system effects are supplied by an environment record,
  and a transport exception raised by the HTTP library is an explicit
  `Except.error` value: a function whose Python counterpart lets an
  exception escape returns `Except.error`, one that catches it at its
  boundary converts it into a logged event;
* the progress sink (a text widget in the source) is a `List LogEvent`,
  one constructor per distinct `log.insert` line of the source.
-/

/-- A transport-level failure raised by the HTTP library, modelled
abstractly (the source never inspects the exception beyond printing it). -/
inductive NetErr where
  | connectionError
  | readTimeout
  deriving DecidableEq

/-- Decoded JSON body of the credential-check probe.  The source only asks
whether the key `id` is present (`'id' in res`); the raw response is kept
because the failure line interpolates it. -/
structure TokenRes where
  id : Option (List Char)
  deriving DecidableEq

/-- Decoded JSON body of the `upload_phase=start` response: the source
reads `upload_session_id`, `video_id`, `start_offset` and `end_offset`
with `.get`, so each is optional. -/
structure StartRes where
  upload_session_id : Option (List Char)
  video_id : Option (List Char)
  start_offset : Option Int
  end_offset : Option Int
  deriving DecidableEq

/-- Decoded JSON body of one `upload_phase=transfer` response: the source
checks `'error' in transfer_res` and then reads the two offsets with
`.get`. -/
structure TransferRes where
  error : Option (List Char)
  start_offset : Option Int
  end_offset : Option Int
  deriving DecidableEq

/-- One line written to the progress sink; one constructor per distinct
`log.insert(tk.END, ...)` call of the source, carrying the interpolated
data. -/
inductive LogEvent where
  | invalidContent
  | downloadProgress (pct : Nat)
  | downloadComplete
  | downloadFailed
  | uploadingStart (size : Nat)
  | sessionFailed (raw : StartRes)
  | transferError (msg : List Char)
  | chunkUploaded (next_start next_end : Option Int)
  | uploaded (link : List Char)
  | uploadFailed
  | tokenValid
  | tokenInvalid (raw : TokenRes)
  deriving DecidableEq

/- ------------------------------------------------------------------ -/
/- Identifier resolution: `convert_drive_link_to_file_id`.             -/
/- ------------------------------------------------------------------ -/

/-- Character class `[\w-]` of the source regex, restricted to ASCII:
letters, digits, underscore or hyphen. -/
def isIdChar (c : Char) : Bool :=
  c.isAlphanum || c == '_' || c == '-'

/-- Attempt of the regex `/d/([\w-]+)` to match at the head of the
string: the literal `/d/` followed by a non-empty maximal run of
`isIdChar` characters, whose run is the captured group. -/
def dMatch : List Char → Option (List Char)
  | '/' :: 'd' :: '/' :: rest =>
      if rest.takeWhile isIdChar = [] then none
      else some (rest.takeWhile isIdChar)
  | _ => none

/-- `re.search(r"/d/([\w-]+)", url)`: try `dMatch` at every position from
the left, returning the first captured group. -/
def findDId : List Char → Option (List Char)
  | [] => none
  | c :: cs =>
      match dMatch (c :: cs) with
      | some tok => some tok
      | none => findDId cs

/-- The literal substring marker `"open?id="` used by the source. -/
def marker : List Char := "open?id=".toList

/-- Suffix after the last occurrence of `marker`, or `none` when the
marker does not occur; `url.split("open?id=")[-1]` returns this suffix
when the marker occurs. -/
def lastSplit : List Char → Option (List Char)
  | [] => none
  | c :: cs =>
      match lastSplit cs with
      | some r => some r
      | none =>
          if List.IsPrefix marker (c :: cs) then
            some ((c :: cs).drop marker.length)
          else none

/-- `url.split("open?id=")[-1]`: the whole string when the marker is
absent, else the suffix after its last occurrence. -/
def pySplitLast (s : List Char) : List Char :=
  (lastSplit s).getD s

/-- `convert_drive_link_to_file_id(url)` from the source: regex match
first, then the `open?id=` substring rule, else the input unchanged. -/
def convert_drive_link_to_file_id (url : List Char) : List Char :=
  match findDId url with
  | some tok => tok
  | none =>
      if List.IsInfix marker url then pySplitLast url else url

/- ------------------------------------------------------------------ -/
/- Fetcher: `download_video_file`.                                     -/
/- ------------------------------------------------------------------ -/

/-- An HTTP response as the Fetcher sees it: the two headers it reads,
the decoded body text (used for the diagnostic file), the streamed body
chunks delivered by `iter_content(32768)`, and whether iterating the
stream raises a transport exception after the listed chunks.
`contentLength` is the numeric value of the header, `none` when the
header is absent (the source then computes `int(headers.get(..., 0))`,
that is `0`). -/
structure HttpResponse where
  contentType : Option (List Char)
  contentLength : Option Nat
  text : List Char
  chunks : List (List Nat)
  streamRaise : Bool

/-- Environment of one `download_video_file` run: the response of the
initial GET (or the transport exception it raises), the outcome of the
BeautifulSoup confirmation-form scrape of that response (external HTML
parsing library, supplied as an oracle: `some (confirm, uuid)` when the
form with both hidden fields is present), and the response of the
re-issued confirmation GET. -/
structure DownEnv where
  resp1 : Except NetErr HttpResponse
  confirmInfo : Option (List Char × List Char)
  resp2 : Except NetErr HttpResponse

/-- Observable outcome of one `download_video_file` run: the progress
events, the diagnostic file content when written, the bytes written to
the Local Artifact path (`none` when that file is never opened), and the
returned value — `Except.error` when an exception escaped the function
(the code before the `try` block is unprotected). -/
structure FetchOutcome where
  log : List LogEvent
  errorFile : Option (List Char)
  artifact : Option (List Nat)
  result : Except NetErr Bool

/-- The response whose headers and body the Fetcher finally inspects:
the initial response, or the confirmation response when the form scrape
produced both hidden values. -/
def finalResponse (env : DownEnv) : Except NetErr HttpResponse :=
  match env.resp1 with
  | Except.error e => Except.error e
  | Except.ok r1 =>
      match env.confirmInfo with
      | some _ => env.resp2
      | none => Except.ok r1

/-- `"html" in content_type.lower()` of the source. -/
def htmlIn (ct : List Char) : Prop :=
  List.IsInfix "html".toList (ct.map Char.toLower)

instance (ct : List Char) : Decidable (htmlIn ct) :=
  List.decidableInfix _ _

/-- The streaming loop of the source: for every chunk, a falsy (empty)
chunk is skipped, otherwise it is written and, when `content_length` is
truthy (nonzero), a percentage progress event
`min(100, int(downloaded * 100 / content_length))` is emitted.
Returns the written bytes and the emitted events. -/
def stream_go (L : Nat) :
    List (List Nat) → Nat → List Nat → List LogEvent → List Nat × List LogEvent
  | [], _, acc, log => (acc, log)
  | c :: rest, d, acc, log =>
      if c = [] then stream_go L rest d acc log
      else
        stream_go L rest (d + c.length) (acc ++ c)
          (if L = 0 then log
           else log ++ [LogEvent.downloadProgress (min 100 ((d + c.length) * 100 / L))])

/-- `download_video_file` from the source.  The initial GET, the form
scrape, the possible confirmation GET and the header inspection are not
inside any `try`: a transport exception there escapes as `Except.error`.
When the content type contains `html` or the declared length is below
1,000,000 the raw text goes to the diagnostic file and the function
returns `False` without opening the artifact.  Otherwise the body is
streamed inside a `try` whose handler logs the failure and returns
`False`. -/
def download_video_file (env : DownEnv) : FetchOutcome :=
  match finalResponse env with
  | Except.error e => ⟨[], none, none, Except.error e⟩
  | Except.ok resp =>
      if htmlIn (resp.contentType.getD []) ∨ resp.contentLength.getD 0 < 1000000 then
        ⟨[LogEvent.invalidContent], some resp.text, none, Except.ok false⟩
      else
        let p := stream_go (resp.contentLength.getD 0) resp.chunks 0 [] []
        if resp.streamRaise then
          ⟨p.2 ++ [LogEvent.downloadFailed], none, some p.1, Except.ok false⟩
        else
          ⟨p.2 ++ [LogEvent.downloadComplete], none, some p.1, Except.ok true⟩

/- ------------------------------------------------------------------ -/
/- Uploader: `upload_to_facebook`.                                     -/
/- ------------------------------------------------------------------ -/

/-- `f.seek(s); f.read(n)` on the local file: for `n >= 0` the bytes
from position `s` up to `n` of them; Python reads to the end of the file
when `n` is negative. -/
def pyRead (file : List Nat) (s n : Int) : List Nat :=
  if n < 0 then file.drop s.toNat
  else (file.drop s.toNat).take n.toNat

/-- The offsets a chunk iteration needs in order not to raise and to
read a non-empty chunk: a non-negative start inside the file, strictly
below the end offset. -/
abbrev validRange (file : List Nat) (s e : Int) : Prop :=
  0 ≤ s ∧ s < (file.length : Int) ∧ s < e

/-- Outcome of the `while True` transfer loop of the source:
`finished` for the two `break` exits (empty chunk, or equal offsets in
the response), `errored` for the `return` on an `error` field,
`raised` when a statement raises (`int(None)`, negative seek) — the
top-level handler catches it —, `fuelOut` when the modelling fuel ran
out (the loop would still be running). -/
inductive UpOutcome where
  | finished (log : List LogEvent) (calls : Nat)
  | errored (log : List LogEvent) (calls : Nat)
  | raised (log : List LogEvent) (calls : Nat)
  | fuelOut

/-- The transfer loop of the source.  `calls` counts the transfer POSTs
issued so far; `transfers n` is the decoded JSON of the response to the
n-th transfer POST.  Per iteration, in source order: `int(...)` on a
missing offset raises; a negative seek raises; an empty chunk breaks the
loop; otherwise the POST is issued; an `error` field returns; the new
offsets are logged; equal new offsets (also two `None`s) break the
loop. -/
def uploadLoop (file : List Nat) (transfers : Nat → TransferRes) :
    Nat → Option Int → Option Int → Nat → List LogEvent → UpOutcome
  | 0, _, _, _, _ => UpOutcome.fuelOut
  | fuel + 1, some s, some e, calls, log =>
      if s < 0 then UpOutcome.raised log calls
      else if pyRead file s (e - s) = [] then UpOutcome.finished log calls
      else
        match (transfers calls).error with
        | some msg => UpOutcome.errored (log ++ [LogEvent.transferError msg]) (calls + 1)
        | none =>
            if (transfers calls).start_offset = (transfers calls).end_offset then
              UpOutcome.finished
                (log ++ [LogEvent.chunkUploaded (transfers calls).start_offset
                  (transfers calls).end_offset]) (calls + 1)
            else
              uploadLoop file transfers fuel (transfers calls).start_offset
                (transfers calls).end_offset (calls + 1)
                (log ++ [LogEvent.chunkUploaded (transfers calls).start_offset
                  (transfers calls).end_offset])
  | _ + 1, _, _, calls, log => UpOutcome.raised log calls

/-- Python truthiness of the session token read with `.get`: present and
non-empty. -/
def sessionTruthy (o : Option (List Char)) : Bool :=
  match o with
  | none => false
  | some s => !s.isEmpty

/-- Python `str` rendering of an optional string, as an f-string does
(`None` when absent). -/
def pyStr (o : Option (List Char)) : List Char :=
  match o with
  | some v => v
  | none => "None".toList

/-- The fixed public-reference URL template of the source with the
asset identifier interpolated. -/
def fbTemplate (vid : List Char) : List Char :=
  "https://www.facebook.com/video.php?v=".toList ++ vid

/-- The f-string `"https://www.facebook.com/video.php?v={video_id}"`. -/
def fb_link (video_id : Option (List Char)) : List Char :=
  "https://www.facebook.com/video.php?v=".toList ++ pyStr video_id

/-- Observable outcome of one `upload_to_facebook` run: the events, the
number of transfer POSTs issued and whether the finish POST was
issued.  The Python function itself returns `None` on every path. -/
structure UploadResult where
  log : List LogEvent
  transferCalls : Nat
  finishCalled : Bool
  deriving DecidableEq

/-- `upload_to_facebook` from the source.  The whole body sits in one
`try`, so a raising loop is converted into a single failure event.  A
falsy session token logs the raw start response and returns before any
transfer.  After the loop breaks, the finish POST is issued and the
link with the interpolated `video_id` is logged.  `none` only when the
modelling fuel ran out. -/
def upload_to_facebook (fuel : Nat) (file : List Nat) (startRes : StartRes)
    (transfers : Nat → TransferRes) : Option UploadResult :=
  let log0 : List LogEvent := [LogEvent.uploadingStart file.length]
  if sessionTruthy startRes.upload_session_id then
    match uploadLoop file transfers fuel startRes.start_offset startRes.end_offset 0 log0 with
    | UpOutcome.fuelOut => none
    | UpOutcome.errored log calls => some ⟨log, calls, false⟩
    | UpOutcome.raised log calls => some ⟨log ++ [LogEvent.uploadFailed], calls, false⟩
    | UpOutcome.finished log calls =>
        some ⟨log ++ [LogEvent.uploaded (fb_link startRes.video_id)], calls, true⟩
  else
    some ⟨log0 ++ [LogEvent.sessionFailed startRes], 0, false⟩

/- ------------------------------------------------------------------ -/
/- Credential Checker: `test_token`.                                   -/
/- ------------------------------------------------------------------ -/

/-- `test_token` from the source.  It has no `try` at all: a transport
exception raised by the GET (or by `.json()`) escapes to the caller,
hence the `Except.error` pass-through. -/
def test_token (res : Except NetErr TokenRes) : Except NetErr (List LogEvent) :=
  match res with
  | Except.error e => Except.error e
  | Except.ok r =>
      if r.id.isSome then Except.ok [LogEvent.tokenValid]
      else Except.ok [LogEvent.tokenInvalid r]

/- ------------------------------------------------------------------ -/
/- Derived observers used by the statements.                           -/
/- ------------------------------------------------------------------ -/

/-- Running totals `d0 + n1, d0 + n1 + n2, ...` of a list of chunk
sizes: the successive values of the `downloaded` counter. -/
def cumSums : Nat → List Nat → List Nat
  | _, [] => []
  | d, n :: ns => (d + n) :: cumSums (d + n) ns

/-- The successive values of `downloaded` over a chunk list. -/
def cumLens (chunks : List (List Nat)) : List Nat :=
  cumSums 0 (chunks.map List.length)

/-- The percentages carried by the progress events of a log, in order. -/
def progressEvents (log : List LogEvent) : List Nat :=
  log.filterMap fun e =>
    match e with
    | LogEvent.downloadProgress p => some p
    | _ => none

/-- The `Chunk uploaded` events produced by `k` non-final loop
iterations that were answered with the dictated ranges
`off 1, ..., off k`. -/
def chunkEvents (off : Nat → Int × Int) (k : Nat) : List LogEvent :=
  (List.range k).map fun i =>
    LogEvent.chunkUploaded (some (off (i + 1)).1) (some (off (i + 1)).2)

/- ------------------------------------------------------------------ -/
/- Fetcher lemmas.                                                     -/
/- ------------------------------------------------------------------ -/

/-- A response classified invalid makes the Fetcher write the raw text
to the diagnostic file and return false without opening the artifact. -/
theorem download_invalid_aux (env : DownEnv) (resp : HttpResponse)
    (hfin : finalResponse env = Except.ok resp)
    (hbad : htmlIn (resp.contentType.getD []) ∨ resp.contentLength.getD 0 < 1000000) :
    download_video_file env =
      ⟨[LogEvent.invalidContent], some resp.text, none, Except.ok false⟩ := by
  simp only [download_video_file, hfin]
  rw [if_pos hbad]

/-- Bytes written by the streaming loop: the concatenation of the
received chunks, in order, after the initial accumulator. -/
theorem stream_go_bytes (L : Nat) :
    ∀ (chunks : List (List Nat)) (d : Nat) (acc : List Nat) (log : List LogEvent),
      (stream_go L chunks d acc log).1 = acc ++ chunks.flatten := by
  intro chunks
  induction chunks with
  | nil => intro d acc log; simp [stream_go]
  | cons c rest ih =>
      intro d acc log
      by_cases hc : c = []
      · subst hc
        simp only [stream_go, if_pos rfl]
        simp [ih]
      · simp only [stream_go, if_neg hc]
        rw [ih]
        simp

/-- Events appended by the streaming loop when the length is nonzero and
every chunk is non-empty: one percentage event per chunk, computed from
the running `downloaded` total. -/
theorem stream_go_events (L : Nat) (hL : L ≠ 0) :
    ∀ (chunks : List (List Nat)) (d : Nat) (acc : List Nat) (log : List LogEvent),
      (∀ c ∈ chunks, c ≠ []) →
      (stream_go L chunks d acc log).2 =
        log ++ (cumSums d (chunks.map List.length)).map
          (fun x => LogEvent.downloadProgress (min 100 (x * 100 / L))) := by
  intro chunks
  induction chunks with
  | nil => intro d acc log _; simp [stream_go, cumSums]
  | cons c rest ih =>
      intro d acc log h
      have hc : c ≠ [] := h c (by simp)
      simp only [stream_go, if_neg hc, if_neg hL]
      rw [ih (d + c.length) (acc ++ c) _ (fun x hx => h x (by simp [hx]))]
      simp [cumSums]

/-- C4: for every final download response whose content-type indicates
HTML or whose declared content-length is strictly below 1,000,000 bytes
(including the non-HTML, small-length case), the Fetcher writes the raw
response text to the diagnostic file, reports failure (returns false),
and writes nothing to the Local Artifact path. -/
theorem download_invalid_response (env : DownEnv) (resp : HttpResponse)
    (hfin : finalResponse env = Except.ok resp)
    (hbad : htmlIn (resp.contentType.getD []) ∨ resp.contentLength.getD 0 < 1000000) :
    download_video_file env =
      ⟨[LogEvent.invalidContent], some resp.text, none, Except.ok false⟩ :=
  download_invalid_aux env resp hfin hbad

/-- Concrete response for the C4 witness: non-HTML content type with a
declared length below the threshold. -/
def wRespSmall : HttpResponse :=
  ⟨some "video/mp4".toList, some 5, "small".toList, [[1]], false⟩

/-- Concrete environment for the C4 witness. -/
def wEnvSmall : DownEnv :=
  ⟨Except.ok wRespSmall, none, Except.ok wRespSmall⟩

theorem download_invalid_response_witness :
    download_video_file wEnvSmall =
      ⟨[LogEvent.invalidContent], some "small".toList, none, Except.ok false⟩ :=
  download_invalid_response wEnvSmall wRespSmall rfl (Or.inr (by decide))

/-- C10: a final download response with no content-length header at all
is classified with the substituted length 0, hence always invalid, and
the Local Artifact is never written. -/
theorem download_missing_length (env : DownEnv) (resp : HttpResponse)
    (hfin : finalResponse env = Except.ok resp)
    (hnone : resp.contentLength = none) :
    download_video_file env =
      ⟨[LogEvent.invalidContent], some resp.text, none, Except.ok false⟩ :=
  download_invalid_aux env resp hfin (Or.inr (by rw [hnone]; decide))

/-- Concrete response for the C10 witness: no content-length header, a
non-HTML content type, and a body actually carrying bytes. -/
def wRespNoLen : HttpResponse :=
  ⟨some "video/mp4".toList, none, "page".toList, [[9, 9, 9]], false⟩

/-- Concrete environment for the C10 witness. -/
def wEnvNoLen : DownEnv :=
  ⟨Except.ok wRespNoLen, none, Except.ok wRespNoLen⟩

theorem download_missing_length_witness :
    download_video_file wEnvNoLen =
      ⟨[LogEvent.invalidContent], some "page".toList, none, Except.ok false⟩ :=
  download_missing_length wEnvNoLen wRespNoLen rfl rfl

/-- C3: a Start response whose decoded JSON lacks a session token makes
the Uploader report the raw response as a failure and return with no
transfer POST and no finish POST. -/
theorem upload_no_session (fuel : Nat) (file : List Nat) (startRes : StartRes)
    (transfers : Nat → TransferRes) (h : startRes.upload_session_id = none) :
    upload_to_facebook fuel file startRes transfers =
      some ⟨[LogEvent.uploadingStart file.length, LogEvent.sessionFailed startRes],
        0, false⟩ := by
  unfold upload_to_facebook
  rw [h]
  simp [sessionTruthy]

/-- Concrete start response for the C3 witness. -/
def wStartNoSession : StartRes := ⟨none, some ['v'], some 0, some 4⟩

theorem upload_no_session_witness :
    upload_to_facebook 3 [1, 2] wStartNoSession (fun _ => ⟨none, none, none⟩) =
      some ⟨[LogEvent.uploadingStart 2, LogEvent.sessionFailed wStartNoSession],
        0, false⟩ :=
  upload_no_session 3 [1, 2] wStartNoSession (fun _ => ⟨none, none, none⟩) rfl

/-- C8 counterexample: a transport exception raised by the Credential
Checker's network call is not caught at the operation boundary — it
escapes `test_token` to the caller as a structured error, where the
claim requires every failure to be converted into a progress event. -/
theorem checker_exception_escapes :
    test_token (Except.error NetErr.connectionError) =
      Except.error NetErr.connectionError := rfl

/-- A response classified valid sends the Fetcher into the streaming
branch, whose outcome depends only on the stream and the raise flag. -/
theorem download_valid_aux (env : DownEnv) (resp : HttpResponse)
    (hfin : finalResponse env = Except.ok resp)
    (hgood : ¬ (htmlIn (resp.contentType.getD []) ∨ resp.contentLength.getD 0 < 1000000)) :
    download_video_file env =
      (if resp.streamRaise then
        ⟨(stream_go (resp.contentLength.getD 0) resp.chunks 0 [] []).2
            ++ [LogEvent.downloadFailed], none,
          some (stream_go (resp.contentLength.getD 0) resp.chunks 0 [] []).1,
          Except.ok false⟩
      else
        ⟨(stream_go (resp.contentLength.getD 0) resp.chunks 0 [] []).2
            ++ [LogEvent.downloadComplete], none,
          some (stream_go (resp.contentLength.getD 0) resp.chunks 0 [] []).1,
          Except.ok true⟩) := by
  simp only [download_video_file, hfin]
  rw [if_neg hgood]

/-- C8 (amended): failure handling differs per operation.  The Uploader
catches every failure at its boundary and converts it into a single
failure event.  The Fetcher catches only failures raised during the
streaming phase; a transport exception raised before the `try` block
(initial GET, confirmation GET, header inspection) escapes to the
caller.  The Credential Checker catches nothing: a transport exception
escapes it unchanged. -/
theorem error_boundaries :
    (∀ (fuel : Nat) (file : List Nat) (startRes : StartRes)
        (transfers : Nat → TransferRes) (log : List LogEvent) (calls : Nat),
        sessionTruthy startRes.upload_session_id = true →
        uploadLoop file transfers fuel startRes.start_offset startRes.end_offset 0
            [LogEvent.uploadingStart file.length] = UpOutcome.raised log calls →
        upload_to_facebook fuel file startRes transfers =
          some ⟨log ++ [LogEvent.uploadFailed], calls, false⟩) ∧
    (∀ (env : DownEnv) (resp : HttpResponse),
        finalResponse env = Except.ok resp →
        ¬ (htmlIn (resp.contentType.getD []) ∨ resp.contentLength.getD 0 < 1000000) →
        resp.streamRaise = true →
        (download_video_file env).result = Except.ok false ∧
        (download_video_file env).log.getLast? = some LogEvent.downloadFailed) ∧
    (∀ e : NetErr, test_token (Except.error e) = Except.error e) ∧
    (∀ (env : DownEnv) (e : NetErr),
        finalResponse env = Except.error e →
        download_video_file env = ⟨[], none, none, Except.error e⟩) := by
  refine ⟨?_, ?_, ?_, ?_⟩
  · intro fuel file startRes transfers log calls hs hloop
    unfold upload_to_facebook
    simp only [hs, if_true, hloop]
  · intro env resp hfin hgood hraise
    have h := download_valid_aux env resp hfin hgood
    rw [hraise, if_pos rfl] at h
    rw [h]
    exact ⟨rfl, List.getLast?_concat _⟩
  · intro e; rfl
  · intro env e hfin
    simp only [download_video_file, hfin]

/-- Concrete start response for the C8 witness: a present session token
but no offsets, so the first loop iteration raises on `int(None)`. -/
def wStartRaise : StartRes := ⟨some ['s'], none, none, none⟩

/-- Concrete response for the C8 witness: classified valid but raising
during streaming. -/
def wRespRaise : HttpResponse :=
  ⟨some "video/mp4".toList, some 2000000, "x".toList, [[1, 2]], true⟩

/-- Concrete environment for the C8 witness streaming case. -/
def wEnvRaise : DownEnv :=
  ⟨Except.ok wRespRaise, none, Except.ok wRespRaise⟩

/-- Concrete environment for the C8 witness escape case: the initial GET
raises. -/
def wEnvErr : DownEnv :=
  ⟨Except.error NetErr.readTimeout, none, Except.ok wRespRaise⟩

theorem error_boundaries_witness :
    upload_to_facebook 1 [] wStartRaise (fun _ => ⟨none, none, none⟩) =
      some ⟨[LogEvent.uploadingStart 0] ++ [LogEvent.uploadFailed], 0, false⟩ ∧
    ((download_video_file wEnvRaise).result = Except.ok false ∧
      (download_video_file wEnvRaise).log.getLast? = some LogEvent.downloadFailed) ∧
    test_token (Except.error NetErr.connectionError) =
      Except.error NetErr.connectionError ∧
    download_video_file wEnvErr = ⟨[], none, none, Except.error NetErr.readTimeout⟩ :=
  ⟨error_boundaries.1 1 [] wStartRaise (fun _ => ⟨none, none, none⟩)
      [LogEvent.uploadingStart 0] 0 rfl rfl,
    error_boundaries.2.1 wEnvRaise wRespRaise rfl (by decide) rfl,
    error_boundaries.2.2.1 NetErr.connectionError,
    error_boundaries.2.2.2 wEnvErr NetErr.readTimeout rfl⟩

/-- The running totals start at or above the accumulator. -/
theorem cumSums_head_ge :
    ∀ (ns : List Nat) (a x : Nat), (cumSums a ns).head? = some x → a ≤ x := by
  intro ns
  cases ns with
  | nil => intro a x h; simp [cumSums] at h
  | cons n ns =>
      intro a x h
      simp only [cumSums, List.head?_cons, Option.some.injEq] at h
      omega

/-- The running totals are non-decreasing. -/
theorem cumSums_chain :
    ∀ (ns : List Nat) (a : Nat), List.Chain' (· ≤ ·) (cumSums a ns) := by
  intro ns
  induction ns with
  | nil => intro a; simp [cumSums]
  | cons n ns ih =>
      intro a
      simp only [cumSums]
      rw [List.chain'_cons']
      exact ⟨fun y hy => cumSums_head_ge ns (a + n) y (Option.mem_def.mp hy), ih (a + n)⟩

/-- Progress extraction distributes over append. -/
theorem progressEvents_append (l1 l2 : List LogEvent) :
    progressEvents (l1 ++ l2) = progressEvents l1 ++ progressEvents l2 := by
  simp [progressEvents]

/-- Progress extraction recovers the percentages of a pure progress
log. -/
theorem progressEvents_map (f : Nat → Nat) :
    ∀ xs : List Nat,
      progressEvents (xs.map fun d => LogEvent.downloadProgress (f d)) = xs.map f := by
  intro xs
  induction xs with
  | nil => rfl
  | cons x xs ih =>
      simp only [List.map_cons, progressEvents, List.filterMap_cons] at ih ⊢
      rw [ih]

/-- The percentage formula is monotone in the byte count. -/
theorem pct_mono (L : Nat) :
    ∀ a b : Nat, a ≤ b → min 100 (a * 100 / L) ≤ min 100 (b * 100 / L) := by
  intro a b hab
  exact min_le_min (le_refl 100) (Nat.div_le_div_right (Nat.mul_le_mul_right 100 hab))

/-- C5: for a valid download with known nonzero content-length and only
non-empty reads, one percentage event is emitted per read, its value is
`min 100 (downloaded * 100 / content_length)` for the cumulative count
after that read, and the sequence is non-decreasing and bounded by
100. -/
theorem download_progress_events (env : DownEnv) (resp : HttpResponse) (L : Nat)
    (hfin : finalResponse env = Except.ok resp)
    (hlen : resp.contentLength = some L)
    (hL : 1000000 ≤ L)
    (hct : ¬ htmlIn (resp.contentType.getD []))
    (hraise : resp.streamRaise = false)
    (hchunks : ∀ c ∈ resp.chunks, c ≠ []) :
    progressEvents (download_video_file env).log =
        (cumLens resp.chunks).map (fun d => min 100 (d * 100 / L)) ∧
    List.Chain' (· ≤ ·) (progressEvents (download_video_file env).log) ∧
    ∀ p ∈ progressEvents (download_video_file env).log, p ≤ 100 := by
  have hgood : ¬ (htmlIn (resp.contentType.getD []) ∨ resp.contentLength.getD 0 < 1000000) := by
    rw [hlen]
    push_neg
    exact ⟨hct, by simpa using hL⟩
  have h := download_valid_aux env resp hfin hgood
  rw [hraise, if_neg (by simp)] at h
  rw [h]
  have hL0 : L ≠ 0 := by omega
  have hst := stream_go_events L hL0 resp.chunks 0 [] [] hchunks
  rw [hlen] at h ⊢
  simp only [hlen, Option.getD_some] at h ⊢
  rw [hst]
  simp only [List.nil_append]
  have hpe : progressEvents
      ((cumSums 0 (resp.chunks.map List.length)).map
          (fun x => LogEvent.downloadProgress (min 100 (x * 100 / L)))
        ++ [LogEvent.downloadComplete]) =
      (cumLens resp.chunks).map (fun d => min 100 (d * 100 / L)) := by
    rw [progressEvents_append, progressEvents_map]
    simp [progressEvents, cumLens]
  refine ⟨hpe, ?_, ?_⟩
  · rw [hpe]
    exact List.chain'_map_of_chain' _ (pct_mono L) (cumSums_chain _ 0)
  · rw [hpe]
    intro p hp
    rcases List.mem_map.mp hp with ⟨d, _, hd⟩
    rw [← hd]
    exact min_le_left _ _

/-- C6: for a response classified valid, streaming completes with the
Local Artifact holding exactly the concatenation of the received
chunks, and the Fetcher reports success. -/
theorem download_valid_stream (env : DownEnv) (resp : HttpResponse) (L : Nat)
    (hfin : finalResponse env = Except.ok resp)
    (hlen : resp.contentLength = some L)
    (hL : 1000000 ≤ L)
    (hct : ¬ htmlIn (resp.contentType.getD []))
    (hraise : resp.streamRaise = false) :
    (download_video_file env).artifact = some resp.chunks.flatten ∧
    (download_video_file env).result = Except.ok true ∧
    (download_video_file env).log.getLast? = some LogEvent.downloadComplete := by
  have hgood : ¬ (htmlIn (resp.contentType.getD []) ∨ resp.contentLength.getD 0 < 1000000) := by
    rw [hlen]
    push_neg
    exact ⟨hct, by simpa using hL⟩
  have h := download_valid_aux env resp hfin hgood
  rw [hraise, if_neg (by simp)] at h
  rw [h]
  refine ⟨?_, rfl, List.getLast?_concat _⟩
  rw [stream_go_bytes]
  rfl

/-- Concrete response for the C5 and C6 witnesses: valid headers, two
non-empty chunks, a clean stream. -/
def wRespGood : HttpResponse :=
  ⟨some "application/octet-stream".toList, some 1000000, [],
    [[1, 1, 1], [2, 2]], false⟩

/-- Concrete environment for the C5 and C6 witnesses. -/
def wEnvGood : DownEnv :=
  ⟨Except.ok wRespGood, none, Except.ok wRespGood⟩

theorem download_progress_events_witness :
    progressEvents (download_video_file wEnvGood).log =
        (cumLens wRespGood.chunks).map (fun d => min 100 (d * 100 / 1000000)) ∧
    List.Chain' (· ≤ ·) (progressEvents (download_video_file wEnvGood).log) ∧
    ∀ p ∈ progressEvents (download_video_file wEnvGood).log, p ≤ 100 :=
  download_progress_events wEnvGood wRespGood 1000000 rfl rfl (by omega)
    (by decide) rfl (by decide)

theorem download_valid_stream_witness :
    (download_video_file wEnvGood).artifact = some wRespGood.chunks.flatten ∧
    (download_video_file wEnvGood).result = Except.ok true ∧
    (download_video_file wEnvGood).log.getLast? = some LogEvent.downloadComplete :=
  download_valid_stream wEnvGood wRespGood 1000000 rfl rfl (by omega)
    (by decide) rfl

/- ------------------------------------------------------------------ -/
/- Uploader lemmas.                                                    -/
/- ------------------------------------------------------------------ -/

/-- A valid range yields a non-empty chunk read. -/
theorem pyRead_nonempty (file : List Nat) (s e : Int)
    (h0 : 0 ≤ s) (hlen : s < (file.length : Int)) (hse : s < e) :
    ¬ pyRead file s (e - s) = [] := by
  unfold pyRead
  rw [if_neg (by omega : ¬ e - s < 0)]
  intro hnil
  have h1 : ((file.drop s.toNat).take (e - s).toNat).length = 0 := by
    rw [hnil]; rfl
  rw [List.length_take, List.length_drop] at h1
  rcases Nat.min_eq_zero_iff.mp h1 with h | h
  · omega
  · omega

/-- One non-final loop iteration: valid range, error-free response with
distinct new offsets — the loop logs the new range and continues with
it. -/
theorem uploadLoop_step_clean (file : List Nat) (transfers : Nat → TransferRes)
    (fuel : Nat) (s e : Int) (calls : Nat) (log : List LogEvent) (s' e' : Int)
    (hv : validRange file s e)
    (he : (transfers calls).error = none)
    (hso : (transfers calls).start_offset = some s')
    (heo : (transfers calls).end_offset = some e')
    (hne : s' ≠ e') :
    uploadLoop file transfers (fuel + 1) (some s) (some e) calls log =
      uploadLoop file transfers fuel (some s') (some e') (calls + 1)
        (log ++ [LogEvent.chunkUploaded (some s') (some e')]) := by
  obtain ⟨h0, hlen, hse⟩ := hv
  simp only [uploadLoop, if_neg (show ¬ s < 0 by omega),
    if_neg (pyRead_nonempty file s e h0 hlen hse), he, hso, heo,
    if_neg (show ¬ (some s' : Option Int) = some e' by simp [hne])]

/-- The final loop iteration of a completing run: valid range,
error-free response whose two offsets are equal (possibly both
absent) — the loop logs them and breaks. -/
theorem uploadLoop_step_finish (file : List Nat) (transfers : Nat → TransferRes)
    (fuel : Nat) (s e : Int) (calls : Nat) (log : List LogEvent)
    (hv : validRange file s e)
    (he : (transfers calls).error = none)
    (heq : (transfers calls).start_offset = (transfers calls).end_offset) :
    uploadLoop file transfers (fuel + 1) (some s) (some e) calls log =
      UpOutcome.finished
        (log ++ [LogEvent.chunkUploaded (transfers calls).start_offset
          (transfers calls).end_offset]) (calls + 1) := by
  obtain ⟨h0, hlen, hse⟩ := hv
  simp only [uploadLoop, if_neg (show ¬ s < 0 by omega),
    if_neg (pyRead_nonempty file s e h0 hlen hse), he, if_pos heq]

/-- A loop iteration answered with an `error` field: the loop reports it
and returns after this one POST. -/
theorem uploadLoop_step_error (file : List Nat) (transfers : Nat → TransferRes)
    (fuel : Nat) (s e : Int) (calls : Nat) (log : List LogEvent) (msg : List Char)
    (hv : validRange file s e)
    (he : (transfers calls).error = some msg) :
    uploadLoop file transfers (fuel + 1) (some s) (some e) calls log =
      UpOutcome.errored (log ++ [LogEvent.transferError msg]) (calls + 1) := by
  obtain ⟨h0, hlen, hse⟩ := hv
  simp only [uploadLoop, if_neg (show ¬ s < 0 by omega),
    if_neg (pyRead_nonempty file s e h0 hlen hse), he]

/-- Unfolding the event list of `k + 1` iterations from the front. -/
theorem chunkEvents_succ_head (off : Nat → Int × Int) (k : Nat) :
    chunkEvents off (k + 1) =
      LogEvent.chunkUploaded (some (off 1).1) (some (off 1).2) ::
        chunkEvents (fun i => off (i + 1)) k := by
  simp only [chunkEvents, List.range_succ_eq_map, List.map_cons, List.map_map]
  rfl

/-- Unfolding the event list of `k + 1` iterations from the back. -/
theorem chunkEvents_succ_last (off : Nat → Int × Int) (k : Nat) :
    chunkEvents off (k + 1) =
      chunkEvents off k ++
        [LogEvent.chunkUploaded (some (off (k + 1)).1) (some (off (k + 1)).2)] := by
  simp [chunkEvents, List.range_succ]

/-- Running `k` clean non-final iterations: the loop advances to the
k-th dictated range having issued `k` POSTs and logged the `k` dictated
ranges. -/
theorem uploadLoop_advance (file : List Nat) (transfers : Nat → TransferRes) :
    ∀ (k fuel calls : Nat) (off : Nat → Int × Int) (log : List LogEvent),
      k ≤ fuel →
      (∀ i, i < k → validRange file (off i).1 (off i).2) →
      (∀ i, i < k → (transfers (calls + i)).error = none ∧
          (transfers (calls + i)).start_offset = some (off (i + 1)).1 ∧
          (transfers (calls + i)).end_offset = some (off (i + 1)).2 ∧
          (off (i + 1)).1 ≠ (off (i + 1)).2) →
      uploadLoop file transfers fuel (some (off 0).1) (some (off 0).2) calls log =
        uploadLoop file transfers (fuel - k) (some (off k).1) (some (off k).2)
          (calls + k) (log ++ chunkEvents off k) := by
  intro k
  induction k with
  | zero =>
      intro fuel calls off log _ _ _
      simp [chunkEvents]
  | succ k ih =>
      intro fuel calls off log hfuel hvalid hresp
      obtain ⟨f, rfl⟩ : ∃ f, fuel = f + 1 := ⟨fuel - 1, by omega⟩
      obtain ⟨he0, hso0, heo0, hne0⟩ := hresp 0 (by omega)
      rw [Nat.add_zero] at he0 hso0 heo0
      rw [uploadLoop_step_clean file transfers f (off 0).1 (off 0).2 calls log
        (off 1).1 (off 1).2 (hvalid 0 (by omega)) he0 hso0 heo0 hne0]
      have ih' := ih f (calls + 1) (fun i => off (i + 1))
        (log ++ [LogEvent.chunkUploaded (some (off 1).1) (some (off 1).2)])
        (by omega)
        (fun i hi => hvalid (i + 1) (by omega))
        (fun i hi => by
          have h := hresp (i + 1) (by omega)
          rw [show calls + (i + 1) = calls + 1 + i by omega] at h
          exact h)
      rw [ih', chunkEvents_succ_head, Nat.succ_sub_succ,
        show calls + 1 + k = calls + (k + 1) by omega, List.append_assoc]
      rfl

/-- A present non-empty session token is truthy. -/
theorem sessionTruthy_some (sid : List Char) (h : sid ≠ []) :
    sessionTruthy (some sid) = true := by
  cases sid with
  | nil => exact absurd rfl h
  | cons a l => rfl

/-- C1: with a session token in the Start response and Transfer
responses that update the byte-range cursor until one arrives with
`start_offset = end_offset`, the Uploader issues exactly `k + 1`
transfer POSTs — one per dictated range before equality — then exactly
one finish POST, and reports the fixed URL template with the `video_id`
of the Start response interpolated. -/
theorem upload_protocol_run (fuel k : Nat) (file : List Nat) (startRes : StartRes)
    (transfers : Nat → TransferRes) (sid vid : List Char) (off : Nat → Int × Int)
    (hsid : startRes.upload_session_id = some sid) (hsid' : sid ≠ [])
    (hvid : startRes.video_id = some vid)
    (hs0 : startRes.start_offset = some (off 0).1)
    (he0 : startRes.end_offset = some (off 0).2)
    (hfuel : k + 1 ≤ fuel)
    (hvalid : ∀ i, i < k + 1 → validRange file (off i).1 (off i).2)
    (hresp : ∀ i, i < k + 1 → (transfers i).error = none ∧
        (transfers i).start_offset = some (off (i + 1)).1 ∧
        (transfers i).end_offset = some (off (i + 1)).2)
    (heq : (off (k + 1)).1 = (off (k + 1)).2) :
    upload_to_facebook fuel file startRes transfers =
      some ⟨LogEvent.uploadingStart file.length ::
          (chunkEvents off (k + 1) ++ [LogEvent.uploaded (fbTemplate vid)]),
        k + 1, true⟩ := by
  have hadv := uploadLoop_advance file transfers k fuel 0 off
    [LogEvent.uploadingStart file.length] (by omega)
    (fun i hi => hvalid i (by omega))
    (fun i hi => by
      have h := hresp i (by omega)
      have hv := hvalid (i + 1) (by omega)
      rw [Nat.zero_add]
      exact ⟨h.1, h.2.1, h.2.2, ne_of_lt hv.2.2⟩)
  obtain ⟨m, hm⟩ : ∃ m, fuel - k = m + 1 := ⟨fuel - k - 1, by omega⟩
  obtain ⟨hek, hsok, heok⟩ := hresp k (by omega)
  have heqk : (transfers (0 + k)).start_offset = (transfers (0 + k)).end_offset := by
    rw [Nat.zero_add, hsok, heok, heq]
  have hfin := uploadLoop_step_finish file transfers m (off k).1 (off k).2 (0 + k)
    ([LogEvent.uploadingStart file.length] ++ chunkEvents off k)
    (hvalid k (by omega)) (by rw [Nat.zero_add]; exact hek) heqk
  rw [Nat.zero_add, hsok, heok] at hfin
  unfold upload_to_facebook
  rw [hsid, sessionTruthy_some sid hsid', if_pos rfl, hs0, he0, hadv, hm]
  simp only [Nat.zero_add]
  rw [hfin, hvid]
  rw [chunkEvents_succ_last off k]
  simp [fb_link, fbTemplate, pyStr, List.append_assoc]

/-- C2: a Transfer response carrying an `error` field after `k` clean
iterations makes the Uploader report the error and stop at once: the
erroring POST is the last of the `k + 1` transfer POSTs issued and the
finish POST is never issued. -/
theorem upload_transfer_error (fuel k : Nat) (file : List Nat) (startRes : StartRes)
    (transfers : Nat → TransferRes) (sid : List Char) (off : Nat → Int × Int)
    (msg : List Char)
    (hsid : startRes.upload_session_id = some sid) (hsid' : sid ≠ [])
    (hs0 : startRes.start_offset = some (off 0).1)
    (he0 : startRes.end_offset = some (off 0).2)
    (hfuel : k + 1 ≤ fuel)
    (hvalid : ∀ i, i < k + 1 → validRange file (off i).1 (off i).2)
    (hresp : ∀ i, i < k → (transfers i).error = none ∧
        (transfers i).start_offset = some (off (i + 1)).1 ∧
        (transfers i).end_offset = some (off (i + 1)).2)
    (herr : (transfers k).error = some msg) :
    upload_to_facebook fuel file startRes transfers =
      some ⟨LogEvent.uploadingStart file.length ::
          (chunkEvents off k ++ [LogEvent.transferError msg]), k + 1, false⟩ := by
  have hadv := uploadLoop_advance file transfers k fuel 0 off
    [LogEvent.uploadingStart file.length] (by omega)
    (fun i hi => hvalid i (by omega))
    (fun i hi => by
      have h := hresp i hi
      have hv := hvalid (i + 1) (by omega)
      rw [Nat.zero_add]
      exact ⟨h.1, h.2.1, h.2.2, ne_of_lt hv.2.2⟩)
  obtain ⟨m, hm⟩ : ∃ m, fuel - k = m + 1 := ⟨fuel - k - 1, by omega⟩
  have herrk := uploadLoop_step_error file transfers m (off k).1 (off k).2 (0 + k)
    ([LogEvent.uploadingStart file.length] ++ chunkEvents off k) msg
    (hvalid k (by omega)) (by rw [Nat.zero_add]; exact herr)
  simp only [Nat.zero_add] at herrk
  unfold upload_to_facebook
  rw [hsid, sessionTruthy_some sid hsid', if_pos rfl, hs0, he0, hadv, hm]
  simp only [Nat.zero_add]
  rw [herrk]
  simp [List.append_assoc]

/-- C9: a Transfer response carrying neither an `error` field nor any
offsets leaves both cursor ends absent, the completion test
`start_offset == end_offset` succeeds on the two absent values, the
loop exits as on completion, the finish POST is issued, and success is
reported with the interpolated link. -/
theorem upload_offsetless_completes (fuel k : Nat) (file : List Nat)
    (startRes : StartRes) (transfers : Nat → TransferRes) (sid : List Char)
    (off : Nat → Int × Int)
    (hsid : startRes.upload_session_id = some sid) (hsid' : sid ≠ [])
    (hs0 : startRes.start_offset = some (off 0).1)
    (he0 : startRes.end_offset = some (off 0).2)
    (hfuel : k + 1 ≤ fuel)
    (hvalid : ∀ i, i < k + 1 → validRange file (off i).1 (off i).2)
    (hresp : ∀ i, i < k → (transfers i).error = none ∧
        (transfers i).start_offset = some (off (i + 1)).1 ∧
        (transfers i).end_offset = some (off (i + 1)).2)
    (hmal : transfers k = ⟨none, none, none⟩) :
    upload_to_facebook fuel file startRes transfers =
      some ⟨LogEvent.uploadingStart file.length ::
          (chunkEvents off k ++ [LogEvent.chunkUploaded none none,
            LogEvent.uploaded (fb_link startRes.video_id)]), k + 1, true⟩ := by
  have hadv := uploadLoop_advance file transfers k fuel 0 off
    [LogEvent.uploadingStart file.length] (by omega)
    (fun i hi => hvalid i (by omega))
    (fun i hi => by
      have h := hresp i hi
      have hv := hvalid (i + 1) (by omega)
      rw [Nat.zero_add]
      exact ⟨h.1, h.2.1, h.2.2, ne_of_lt hv.2.2⟩)
  obtain ⟨m, hm⟩ : ∃ m, fuel - k = m + 1 := ⟨fuel - k - 1, by omega⟩
  have hfin := uploadLoop_step_finish file transfers m (off k).1 (off k).2 (0 + k)
    ([LogEvent.uploadingStart file.length] ++ chunkEvents off k)
    (hvalid k (by omega)) (by rw [Nat.zero_add, hmal]) (by rw [Nat.zero_add, hmal])
  rw [Nat.zero_add, hmal] at hfin
  unfold upload_to_facebook
  rw [hsid, sessionTruthy_some sid hsid', if_pos rfl, hs0, he0, hadv, hm]
  simp only [Nat.zero_add]
  rw [hfin]
  simp [List.append_assoc]

/-- Concrete file for the upload witnesses: four bytes. -/
def wFile : List Nat := [10, 20, 30, 40]

/-- Concrete dictated ranges for the upload witnesses. -/
def wOff : Nat → Int × Int
  | 0 => (0, 2)
  | 1 => (2, 4)
  | _ => (4, 4)

/-- Concrete Start response for the upload witnesses. -/
def wStartOk : StartRes := ⟨some ['s'], some ['v'], some 0, some 2⟩

/-- Concrete Transfer responses for the C1 witness: one continuing
range, then equal offsets. -/
def wTransfersOk : Nat → TransferRes
  | 0 => ⟨none, some 2, some 4⟩
  | _ => ⟨none, some 4, some 4⟩

theorem upload_protocol_run_witness :
    upload_to_facebook 3 wFile wStartOk wTransfersOk =
      some ⟨LogEvent.uploadingStart wFile.length ::
          (chunkEvents wOff 2 ++ [LogEvent.uploaded (fbTemplate ['v'])]), 2, true⟩ :=
  upload_protocol_run 3 1 wFile wStartOk wTransfersOk ['s'] ['v'] wOff rfl
    (by decide) rfl rfl rfl (by omega) (by decide) (by decide) (by decide)

/-- Concrete Transfer responses for the C2 witness: one continuing
range, then an error field. -/
def wTransfersErr : Nat → TransferRes
  | 0 => ⟨none, some 2, some 4⟩
  | _ => ⟨some "boom".toList, none, none⟩

theorem upload_transfer_error_witness :
    upload_to_facebook 3 wFile wStartOk wTransfersErr =
      some ⟨LogEvent.uploadingStart wFile.length ::
          (chunkEvents wOff 1 ++ [LogEvent.transferError "boom".toList]), 2, false⟩ :=
  upload_transfer_error 3 1 wFile wStartOk wTransfersErr ['s'] wOff "boom".toList
    rfl (by decide) rfl rfl (by omega) (by decide) (by decide) rfl

theorem upload_offsetless_witness :
    upload_to_facebook 3 wFile wStartOk (fun _ => ⟨none, none, none⟩) =
      some ⟨LogEvent.uploadingStart wFile.length ::
          (chunkEvents wOff 0 ++ [LogEvent.chunkUploaded none none,
            LogEvent.uploaded (fb_link wStartOk.video_id)]), 1, true⟩ :=
  upload_offsetless_completes 3 0 wFile wStartOk (fun _ => ⟨none, none, none⟩)
    ['s'] wOff rfl (by decide) rfl rfl (by omega) (by decide) (by decide) rfl

/- ------------------------------------------------------------------ -/
/- Identifier-resolution lemmas.                                       -/
/- ------------------------------------------------------------------ -/

/-- The first element surviving `dropWhile` fails the predicate. -/
theorem dropWhile_head_false (p : Char → Bool) :
    ∀ (l : List Char) (c : Char), (l.dropWhile p).head? = some c → p c = false := by
  intro l
  induction l with
  | nil => intro c h; simp [List.dropWhile] at h
  | cons a as ih =>
      intro c h
      rw [List.dropWhile_cons] at h
      by_cases hp : p a
      · rw [if_pos hp] at h
        exact ih c h
      · rw [if_neg hp] at h
        simp only [List.head?_cons, Option.some.injEq] at h
        simp only [Bool.not_eq_true] at hp
        rw [← h]
        exact hp

/-- Soundness of one match attempt: a captured group is a non-empty run
of identifier characters right after the literal `/d/`, maximal in the
sense that the following character (when any) is not an identifier
character. -/
theorem dMatch_sound (s t : List Char) (h : dMatch s = some t) :
    t ≠ [] ∧ (∀ c ∈ t, isIdChar c = true) ∧
    ∃ r, s = '/' :: 'd' :: '/' :: (t ++ r) ∧
      ∀ c, r.head? = some c → isIdChar c = false := by
  unfold dMatch at h
  split at h
  next rest =>
    by_cases hw : rest.takeWhile isIdChar = []
    · rw [if_pos hw] at h
      exact absurd h (by simp)
    · rw [if_neg hw] at h
      have ht : rest.takeWhile isIdChar = t := by
        simpa using h
      subst ht
      refine ⟨hw, ?_, rest.dropWhile isIdChar, ?_, ?_⟩
      · intro c hc
        exact List.mem_takeWhile_imp hc
      · rw [List.takeWhile_append_dropWhile]
      · exact dropWhile_head_false isIdChar rest
  next => exact absurd h (by simp)

/-- Soundness of the left-to-right search: a returned group occurs in
the string as a `/d/<id>` segment. -/
theorem findDId_sound :
    ∀ (s t : List Char), findDId s = some t →
      t ≠ [] ∧ (∀ c ∈ t, isIdChar c = true) ∧
      ∃ p r, s = p ++ '/' :: 'd' :: '/' :: (t ++ r) ∧
        ∀ c, r.head? = some c → isIdChar c = false := by
  intro s
  induction s with
  | nil => intro t h; simp [findDId] at h
  | cons c cs ih =>
      intro t h
      cases hm : dMatch (c :: cs) with
      | some tok =>
          simp only [findDId, hm, Option.some.injEq] at h
          subst h
          have hd := dMatch_sound (c :: cs) tok hm
          obtain ⟨r, hr, hrh⟩ := hd.2.2
          exact ⟨hd.1, hd.2.1, [], r, by rw [hr]; rfl, hrh⟩
      | none =>
          simp only [findDId, hm] at h
          obtain ⟨hne, hmem, p, r, hp, hrh⟩ := ih t h
          exact ⟨hne, hmem, c :: p, r, by rw [hp]; rfl, hrh⟩

/-- The marker written as a cons cell. -/
theorem marker_cons : marker = 'o' :: "pen?id=".toList := rfl

/-- When `lastSplit` finds nothing, the marker does not occur. -/
theorem lastSplit_none :
    ∀ s : List Char, lastSplit s = none → ¬ List.IsInfix marker s := by
  intro s
  induction s with
  | nil =>
      intro _ hin
      have := List.infix_nil.mp hin
      rw [marker_cons] at this
      exact absurd this (by simp)
  | cons c cs ih =>
      intro h hin
      cases hcs : lastSplit cs with
      | some r => simp [lastSplit, hcs] at h
      | none =>
          simp only [lastSplit, hcs] at h
          by_cases hpre : List.IsPrefix marker (c :: cs)
          · rw [if_pos hpre] at h
            exact absurd h (by simp)
          · rw [if_neg hpre] at h
            rcases List.infix_cons_iff.mp hin with hp | hi
            · exact hpre hp
            · exact ih hcs hi

/-- What `lastSplit` returns is the suffix after the last occurrence of
the marker: the string splits around the marker there, and the marker
does not occur in the returned suffix. -/
theorem lastSplit_sound :
    ∀ (s r : List Char), lastSplit s = some r →
      (∃ p, s = p ++ marker ++ r) ∧ ¬ List.IsInfix marker r := by
  intro s
  induction s with
  | nil => intro r h; simp [lastSplit] at h
  | cons c cs ih =>
      intro r h
      cases hcs : lastSplit cs with
      | some r' =>
          simp only [lastSplit, hcs, Option.some.injEq] at h
          subst h
          obtain ⟨⟨p, hp⟩, hni⟩ := ih r' hcs
          exact ⟨⟨c :: p, by rw [List.cons_append, List.cons_append, ← hp]⟩, hni⟩
      | none =>
          simp only [lastSplit, hcs] at h
          by_cases hpre : List.IsPrefix marker (c :: cs)
          · rw [if_pos hpre] at h
            obtain ⟨tl, htl⟩ := hpre
            have hr : r = tl := by
              have hd : (marker ++ tl).drop marker.length = tl := List.drop_left _ _
              rw [htl] at hd
              simp only [Option.some.injEq] at h
              rw [← h, hd]
            subst hr
            refine ⟨⟨[], by rw [List.nil_append, htl]⟩, ?_⟩
            intro hin
            have hcs' : cs = "pen?id=".toList ++ r := by
              rw [marker_cons] at htl
              simp only [List.cons_append] at htl
              injection htl with h1 h2
              exact h2.symm
            have : List.IsInfix marker cs := by
              rw [hcs']
              exact hin.trans (List.suffix_append _ _).isInfix
            exact lastSplit_none cs hcs this
          · rw [if_neg hpre] at h
            exact absurd h (by simp)

/-- C7: identifier resolution applies the source's rules in order and
is total: a `/d/<id>` match returns exactly the captured group (a
non-empty maximal run of identifier characters following a literal
`/d/` occurring in the input); otherwise, when the input contains
`open?id=`, it returns the suffix following that marker (its last
occurrence: the returned suffix is marker-free); otherwise it returns
the input unchanged.  No case signals an error. -/
theorem resolve_identifier_spec (url : List Char) :
    (∀ t, findDId url = some t →
        convert_drive_link_to_file_id url = t ∧ t ≠ [] ∧
        (∀ c ∈ t, isIdChar c = true) ∧
        ∃ p r, url = p ++ '/' :: 'd' :: '/' :: (t ++ r) ∧
          ∀ c, r.head? = some c → isIdChar c = false) ∧
    (findDId url = none → List.IsInfix marker url →
        (∃ p, url = p ++ marker ++ convert_drive_link_to_file_id url) ∧
        ¬ List.IsInfix marker (convert_drive_link_to_file_id url)) ∧
    (findDId url = none → ¬ List.IsInfix marker url →
        convert_drive_link_to_file_id url = url) := by
  refine ⟨?_, ?_, ?_⟩
  · intro t ht
    have hs := findDId_sound url t ht
    refine ⟨?_, hs.1, hs.2.1, hs.2.2⟩
    simp only [convert_drive_link_to_file_id, ht]
  · intro hn hin
    cases hr : lastSplit url with
    | none => exact absurd hin (lastSplit_none url hr)
    | some r =>
        have hsd := lastSplit_sound url r hr
        have hc : convert_drive_link_to_file_id url = r := by
          simp only [convert_drive_link_to_file_id, hn, if_pos hin, pySplitLast, hr,
            Option.getD_some]
        rw [hc]
        exact hsd
  · intro hn hnin
    simp only [convert_drive_link_to_file_id, hn, if_neg hnin]

theorem resolve_identifier_spec_witness :
    (convert_drive_link_to_file_id "https://x.y/d/abc-1_2/view".toList =
        "abc-1_2".toList ∧
      "abc-1_2".toList ≠ [] ∧
      (∀ c ∈ "abc-1_2".toList, isIdChar c = true) ∧
      ∃ p r, "https://x.y/d/abc-1_2/view".toList =
          p ++ '/' :: 'd' :: '/' :: ("abc-1_2".toList ++ r) ∧
        ∀ c, r.head? = some c → isIdChar c = false) ∧
    ((∃ p, "https://drive.google.com/open?id=XYZ".toList =
        p ++ marker ++
          convert_drive_link_to_file_id "https://drive.google.com/open?id=XYZ".toList) ∧
      ¬ List.IsInfix marker
        (convert_drive_link_to_file_id "https://drive.google.com/open?id=XYZ".toList)) ∧
    convert_drive_link_to_file_id "rawfileid42".toList = "rawfileid42".toList :=
  ⟨(resolve_identifier_spec "https://x.y/d/abc-1_2/view".toList).1
      "abc-1_2".toList (by decide),
    (resolve_identifier_spec "https://drive.google.com/open?id=XYZ".toList).2.1
      (by decide) (by decide),
    (resolve_identifier_spec "rawfileid42".toList).2.2 (by decide) (by decide)⟩
